import Mathlib

/-!
Verification of the chunking / ingestion / retrieval core of the
AI-Powered Document Search service.

The Python source is embedded shallowly:
* `ChunkingService.chunk_text` (app/services/chunking_service.py) becomes
  `chunkWords` / `chunk_text` below, operating on the whitespace-split word
  list exactly as the Python loop does;
* `DocumentService.create_document` (app/services/document_service.py)
  becomes `create_document`, a pure pipeline over an explicit state record,
  with the external collaborators (text extractor, embedding client, vector
  index backend) passed in as parameters describing their outcome;
* the query route (app/routes/query.py) becomes `query_documents`, which
  additionally records in its trace the `n_results` value passed to the
  index and whether the LLM completion service was invoked.

Machine floats are modelled as exact rationals; Python `round(x, 4)`
(round-half-to-even) is modelled exactly over `ℚ`.
-/

namespace DocSearch

/-! ### Python string primitives -/

/-- Python `str.split()` with no separator: scan characters, split on runs of
whitespace, discard empty pieces.  `acc` holds the characters of the word
currently being read, in reverse. -/
def splitWordsAux : List Char → List Char → List String
  | [], acc => if acc.isEmpty then [] else [String.mk acc.reverse]
  | c :: cs, acc =>
    if c.isWhitespace then
      if acc.isEmpty then splitWordsAux cs []
      else String.mk acc.reverse :: splitWordsAux cs []
    else splitWordsAux cs (c :: acc)

/-- Python `text.split()` (whitespace splitting, empty pieces dropped). -/
def pySplit (s : String) : List String :=
  splitWordsAux s.toList []

/-- Substring test on character lists, modelling Python's `in` on strings. -/
def containsSub : List Char → List Char → Bool
  | hay, needle =>
    match hay with
    | [] => needle.isEmpty
    | _ :: t => needle.isPrefixOf hay || containsSub t needle

/-- Python `sub in s` for strings. -/
def pyIn (sub s : String) : Bool :=
  containsSub s.toList sub.toList

/-- Python `s.lower()` (character-wise lowering). -/
def pyLower (s : String) : String :=
  String.mk (s.toList.map Char.toLower)

/-! ### ChunkingService.chunk_text  (app/services/chunking_service.py) -/

/-- `len(word) // 4`, the approximate token cost of a word. -/
def wordCost (w : String) : Nat := w.length / 4

/-- `sum(len(w) // 4 for w in current_chunk)`. -/
def chunkCost (l : List String) : Nat := (l.map wordCost).sum

/-- Python `l[-k:]` for a natural `k`: the last `k` elements, except that
`l[-0:]` is the whole list. -/
def pySliceLast (l : List String) (k : Nat) : List String :=
  if k = 0 then l else l.drop (l.length - k)

/-- `current_chunk[-overlap:] if len(current_chunk) > overlap else current_chunk`. -/
def overlapWords (cur : List String) (overlap : Nat) : List String :=
  if cur.length > overlap then pySliceLast cur overlap else cur

/-- The `for word in words` loop of `chunk_text`, producing each chunk as its
word list (the Python code joins with single spaces at append time; joining
commutes with the loop, see `chunk_text`). -/
def chunkLoop (chunkSize overlap : Nat) :
    List String → List (List String) → List String → Nat → List (List String)
  | [], chunks, cur, _ => if cur.isEmpty then chunks else chunks ++ [cur]
  | w :: ws, chunks, cur, curLen =>
    if curLen + wordCost w > chunkSize && !cur.isEmpty then
      let seeded := overlapWords cur overlap ++ [w]
      chunkLoop chunkSize overlap ws (chunks ++ [cur]) seeded (chunkCost seeded)
    else
      chunkLoop chunkSize overlap ws chunks (cur ++ [w]) (curLen + wordCost w)

/-- `chunk_text`, with each chunk kept as its word list. -/
def chunkWords (text : String) (chunkSize overlap : Nat) : List (List String) :=
  chunkLoop chunkSize overlap (pySplit text) [] [] 0

/-- `ChunkingService.chunk_text`: the returned chunk strings. -/
def chunk_text (text : String) (chunkSize overlap : Nat) : List String :=
  (chunkWords text chunkSize overlap).map (String.intercalate " ")

/-- The last `k` elements of a list. -/
def lastN (l : List String) (k : Nat) : List String :=
  l.drop (l.length - k)

/-- De-overlapping a chunk sequence: keep the first chunk whole and drop from
every later chunk its leading `min overlap (length of previous chunk)` words. -/
def dropSeeded (overlap : Nat) : List String → List (List String) → List String
  | _, [] => []
  | prev, c :: cs => c.drop (min overlap prev.length) ++ dropSeeded overlap c cs

/-- Concatenation of a chunk sequence after removing the seeded overlap words
of every chunk but the first. -/
def deOverlapJoin (overlap : Nat) : List (List String) → List String
  | [] => []
  | c :: cs => c ++ dropSeeded overlap c cs

/-! ### Python `round(x, 4)` over exact rationals -/

/-- Python `round(x, 4)` over exact rationals: round-half-to-even at the
fourth decimal.  Everything is computed on the scaled integer numerator so
that all steps are kernel-reducible: with `n = num·10⁴`, `d = den`,
`f = ⌊n/d⌋` (`Int.fdiv` is floor division) and remainder `rem = n - f·d`,
the fractional part of `x·10⁴` is `rem/d`, which compares to `1/2` exactly
as `2·rem` compares to `d`.  On a tie the even neighbour is taken. -/
def pyRound4 (q : ℚ) : ℚ :=
  let n : ℤ := q.num * 10000
  let d : ℤ := (q.den : ℤ)
  let f : ℤ := n.fdiv d
  let rem : ℤ := n - f * d
  let r : ℤ :=
    if 2 * rem < d then f
    else if d < 2 * rem then f + 1
    else if f % 2 = 0 then f else f + 1
  mkRat r 10000

/-- `1 - d` for a rational `d`, computed as `(den - num)/den` so that the
kernel can evaluate it (`Rat.sub` is irreducible); see `oneSub_eq`. -/
def oneSub (d : ℚ) : ℚ :=
  mkRat ((d.den : ℤ) - d.num) d.den

/-! ### Error taxonomy of the pipeline

Each constructor tags one distinct raise site of the Python code, so that
reachability of a branch is expressible. -/

inductive PyError where
  /-- `ValueError("No text extracted from document")` -/
  | noTextExtracted
  /-- `ValueError("No chunks created from document")` -/
  | noChunksCreated
  /-- an error raised by the embedding service (auth or remote failure) -/
  | embedFailed (msg : String)
  /-- `Exception("Vector database not initialized")` from `VectorDBService` -/
  | indexNotInitialized
  /-- a failure raised by the vector-index backend call itself -/
  | indexBackendFailed (msg : String)
  /-- `HTTPException(500, "Vector database not available")` from the query route -/
  | vectorDbUnavailable
  /-- an error raised by the LLM completion service -/
  | llmFailed (msg : String)
  deriving DecidableEq, Repr

/-! ### Vector database service  (app/services/vector_db_service.py) -/

/-- Chunk metadata dict built in `create_document`. -/
structure Meta where
  document_id : String
  chunk_index : Nat
  filename : String
  deriving DecidableEq, Repr

/-- One record held by the Chroma collection. -/
structure VectorEntry where
  chunk_id : String
  embedding : List ℚ
  text : String
  meta : Meta
  deriving DecidableEq, Repr

/-- The `VectorDBService` instance: whether `_initialize` populated the
collection, the outcome of the next backend call (`none` = success), and the
stored entries. -/
structure VectorDB where
  collectionInitialized : Bool
  backendError : Option String
  stored : List VectorEntry
  deriving DecidableEq, Repr

/-- `VectorDBService.add_documents`: raises if the collection was never
initialized, otherwise performs the batched `collection.add`. -/
def VectorDB.add_documents (v : VectorDB) (chunk_ids : List String)
    (embeddings : List (List ℚ)) (chunks : List String)
    (metadatas : List Meta) : Except PyError VectorDB :=
  if !v.collectionInitialized then
    .error .indexNotInitialized
  else
    match v.backendError with
    | some msg => .error (.indexBackendFailed msg)
    | none =>
      .ok { v with stored := (v.stored ++
        ((chunk_ids.zip (embeddings.zip (chunks.zip metadatas))).map
          (fun p => ⟨p.1, p.2.1, p.2.2.1, p.2.2.2⟩))) }

/-! ### Document ingestion  (app/services/document_service.py) -/

/-- The chunk-identifier scheme used at ingestion:
`f"{documentId}_chunk_{i}"`. -/
def chunkId (documentId : String) (i : Nat) : String :=
  documentId ++ "_chunk_" ++ toString i

/-- The list comprehension in `create_document` building the stored ids. -/
def ingestChunkIds (documentId : String) (n : Nat) : List String :=
  (List.range n).map (chunkId documentId)

/-- The reconstruction in the document-detail route (app/routes/documents.py):
`[f"{document_id}_chunk_{i}" for i in range(doc.chunk_count)]`. -/
def reconstructChunkIds (documentId : String) (chunkCount : Nat) : List String :=
  (List.range chunkCount).map (fun i => documentId ++ "_chunk_" ++ toString i)

/-- The file-extension sniffing at the top of `create_document`. -/
def fileExt (file_type : String) : String :=
  if pyIn "pdf" (pyLower file_type) then "pdf"
  else if pyIn "wordprocessingml" (pyLower file_type) || pyIn "docx" (pyLower file_type) then "docx"
  else "txt"

/-- The relational `Document` row as far as the claims observe it. -/
structure DocRow where
  document_id : String
  original_filename : String
  file_type : String
  extracted_text : String
  chunk_count : Nat
  deriving DecidableEq, Repr

/-- Persistent side effects of one ingestion: whether the uploaded file was
written to disk, the vector service afterwards (if present at all), and the
committed relational row (if reached). -/
structure IngestState where
  fileWritten : Bool
  vdb : Option VectorDB
  dbRow : Option DocRow
  deriving DecidableEq, Repr

/-- `DocumentService.create_document`.  `extracted_text` is the text
extractor's output for the uploaded bytes, `embedResult` the embedding
client's outcome, `vdbService` the module global `vector_db_service`
(`none` when its construction failed).  The file is saved before anything
else, so `fileWritten` is true in every outcome. -/
def create_document (documentId filename file_type extracted_text : String)
    (embedResult : Except String (List (List ℚ)))
    (vdbService : Option VectorDB)
    (chunkSize overlap : Nat) : IngestState × Except PyError DocRow :=
  let file_ext := fileExt file_type
  let st0 : IngestState := { fileWritten := true, vdb := vdbService, dbRow := none }
  if extracted_text.toList.all Char.isWhitespace then
    (st0, .error .noTextExtracted)
  else
    let chunks := chunk_text extracted_text chunkSize overlap
    if chunks.isEmpty then
      (st0, .error .noChunksCreated)
    else
      match embedResult with
      | .error msg => (st0, .error (.embedFailed msg))
      | .ok embeddings =>
        let chunk_ids := ingestChunkIds documentId chunks.length
        let metadatas := (List.range chunks.length).map
          (fun i => Meta.mk documentId i filename)
        let row : DocRow :=
          ⟨documentId, filename, file_ext, extracted_text, chunks.length⟩
        match vdbService with
        | none =>
          -- `if vector_db_service:` is false: indexing is silently skipped
          ({ st0 with dbRow := some row }, .ok row)
        | some v =>
          match v.add_documents chunk_ids embeddings chunks metadatas with
          | .error e => (st0, .error e)
          | .ok v2 =>
            ({ fileWritten := true, vdb := some v2, dbRow := some row }, .ok row)

/-! ### Query route  (app/routes/query.py) -/

/-- The dictionary returned by `collection.query` (Chroma nests each field in
an outer singleton list; `distances` may be absent). -/
structure ChromaQueryResults where
  ids : List (List String)
  documents : List (List String)
  metadatas : List (List Meta)
  distances : Option (List (List ℚ))
  deriving DecidableEq, Repr

/-- Response schema `ChunkInfo`. -/
structure ChunkInfo where
  chunk_id : String
  text : String
  similarity_score : ℚ
  deriving DecidableEq, Repr

/-- Response schema `QueryResponse`. -/
structure QueryResponse where
  answer : String
  chunks_used : List ChunkInfo
  document_ids : List String
  model : String
  deriving DecidableEq, Repr

instance {ε α : Type} [DecidableEq ε] [DecidableEq α] : DecidableEq (Except ε α) :=
  fun a b =>
    match a, b with
    | .error e, .error f =>
      if h : e = f then .isTrue (by rw [h]) else .isFalse (by simp [h])
    | .ok x, .ok y =>
      if h : x = y then .isTrue (by rw [h]) else .isFalse (by simp [h])
    | .error _, .ok _ => .isFalse (by simp)
    | .ok _, .error _ => .isFalse (by simp)

/-- Observable outcome of one call of the query route: the HTTP-level result,
the `n_results` value passed to `collection.query` (when that call was
reached), and whether the LLM completion service was invoked. -/
structure QueryTrace where
  response : Except PyError QueryResponse
  usedTopK : Option Int
  llmCalled : Bool
  deriving DecidableEq, Repr

/-- The `query_documents` route handler.  `top_k` is the request's value (an
unconstrained int in the schema), `maxTopK` is `settings.MAX_TOP_K`,
`indexResults` is what `collection.query` returns when it is reached, and
`ragResult` the completion service's outcome when it is called. -/
def query_documents (top_k maxTopK : Int) (llmModel : String)
    (vdbService : Option VectorDB)
    (embedResult : Except String (List ℚ))
    (indexResults : ChromaQueryResults)
    (ragResult : Except String (String × String)) : QueryTrace :=
  match vdbService with
  | none => ⟨.error .vectorDbUnavailable, none, false⟩
  | some v =>
    let topK := min (max top_k 1) maxTopK
    match embedResult with
    | .error msg => ⟨.error (.embedFailed msg), none, false⟩
    | .ok _ =>
      if !v.collectionInitialized then
        ⟨.error .indexNotInitialized, none, false⟩
      else
        let results := indexResults
        if results.ids.isEmpty || (results.ids.headD []).isEmpty then
          ⟨.ok ⟨"No relevant documents found in the database.", [], [], llmModel⟩,
            some topK, false⟩
        else
          let chunk_ids := results.ids.headD []
          let chunks_text := results.documents.headD []
          let metadatas := results.metadatas.headD []
          let distances :=
            (results.distances.getD [List.replicate chunk_ids.length 0]).headD []
          -- `[1 - dist for dist in distances]`
          let similarity_scores := distances.map (fun d => oneSub d)
          let chunks_used :=
            (chunk_ids.zip (chunks_text.zip similarity_scores)).map
              (fun p => ChunkInfo.mk p.1 p.2.1 (pyRound4 p.2.2))
          -- `list(set(...))`: deduplicated, order unspecified in Python
          let document_ids := (metadatas.map Meta.document_id).eraseDups
          match ragResult with
          | .error msg => ⟨.error (.llmFailed msg), some topK, true⟩
          | .ok am => ⟨.ok ⟨am.1, chunks_used, document_ids, am.2⟩, some topK, true⟩

/-! ### Loop invariants of the chunking loop -/

/-- The overlap relation between two consecutive chunks: the second begins
with the trailing `min overlap (length of the first)` words of the first
(the length bound is carried so the relation survives appends to the second
chunk). -/
def OvPair (ov : Nat) (a b : List String) : Prop :=
  min ov a.length ≤ b.length ∧
    b.take (min ov a.length) = lastN a (min ov a.length)

theorem ovPair_seed (ov : Nat) (cur : List String) (w : String) :
    OvPair ov cur (overlapWords cur ov ++ [w]) := by
  constructor
  · unfold overlapWords pySliceLast
    split
    · split
      · simp only [List.length_append, List.length_cons, List.length_nil]
        omega
      · simp only [List.length_append, List.length_drop, List.length_cons, List.length_nil]
        omega
    · simp only [List.length_append, List.length_cons, List.length_nil]
      omega
  · unfold overlapWords pySliceLast lastN
    by_cases h0 : ov = 0
    · subst h0
      simp
    · by_cases hlen : cur.length > ov
      · rw [if_pos hlen, if_neg h0]
        have hmin : min ov cur.length = ov := by omega
        have hlen2 : (cur.drop (cur.length - ov)).length = ov := by
          simp
          omega
        rw [hmin, List.take_left' hlen2]
      · rw [if_neg hlen]
        have hmin : min ov cur.length = cur.length := by omega
        rw [hmin, List.take_left, Nat.sub_self, List.drop_zero]

theorem ovPair_extend {ov : Nat} {a b : List String} (w : String)
    (h : OvPair ov a b) : OvPair ov a (b ++ [w]) := by
  obtain ⟨h1, h2⟩ := h
  refine ⟨by simp; omega, ?_⟩
  rw [List.take_append_of_le_length h1, h2]

theorem chunkLoop_chain (size ov : Nat) (ws : List String) :
    ∀ (chunks : List (List String)) (cur : List String) (curLen : Nat),
      List.Chain' (OvPair ov) (chunks ++ [cur]) →
      List.Chain' (OvPair ov) (chunkLoop size ov ws chunks cur curLen) := by
  induction ws with
  | nil =>
    intro chunks cur curLen h
    unfold chunkLoop
    split
    · exact h.left_of_append
    · exact h
  | cons w ws ih =>
    intro chunks cur curLen h
    unfold chunkLoop
    split
    · apply ih
      refine List.Chain'.append h (List.chain'_singleton _) ?_
      intro x hx y hy
      rw [List.getLast?_concat, Option.mem_def, Option.some_inj] at hx
      rw [List.head?_cons, Option.mem_def, Option.some_inj] at hy
      subst hx
      subst hy
      exact ovPair_seed ov cur w
    · apply ih
      rw [List.chain'_append] at h ⊢
      obtain ⟨h1, _, h3⟩ := h
      refine ⟨h1, List.chain'_singleton _, ?_⟩
      intro x hx y hy
      rw [List.head?_cons, Option.mem_def, Option.some_inj] at hy
      subst hy
      exact ovPair_extend w (h3 x hx cur (by simp))

/-- Every adjacent pair of the produced chunk sequence satisfies the overlap
relation. -/
theorem chunkWords_chain (text : String) (size ov : Nat) :
    List.Chain' (OvPair ov) (chunkWords text size ov) := by
  unfold chunkWords
  apply chunkLoop_chain
  exact List.chain'_singleton _

theorem overlapWords_length (cur : List String) (ov : Nat) (hov : 1 ≤ ov) :
    (overlapWords cur ov).length = min ov cur.length := by
  unfold overlapWords pySliceLast
  split
  · rw [if_neg (by omega)]
    simp only [List.length_drop]
    omega
  · omega

theorem dropSeeded_append (ov : Nat) (b : List String) :
    ∀ (cs : List (List String)) (prev : List String),
      dropSeeded ov prev (cs ++ [b]) =
        dropSeeded ov prev cs ++ b.drop (min ov (cs.getLastD prev).length) := by
  intro cs
  induction cs with
  | nil =>
    intro prev
    simp [dropSeeded]
  | cons c cs ih =>
    intro prev
    simp only [List.cons_append, dropSeeded, List.append_eq, ih c,
      List.getLastD_cons, List.append_assoc]

theorem deOverlapJoin_append (ov : Nat) (l : List (List String))
    (b : List String) (hl : l ≠ []) :
    deOverlapJoin ov (l ++ [b]) =
      deOverlapJoin ov l ++ b.drop (min ov (l.getLastD []).length) := by
  cases l with
  | nil => exact absurd rfl hl
  | cons c cs =>
    simp only [List.cons_append, deOverlapJoin, dropSeeded_append,
      List.getLastD_cons, List.append_assoc]

theorem chunkLoop_deOverlap (size ov : Nat) (hov : 1 ≤ ov) (ws : List String) :
    ∀ (chunks : List (List String)) (cur : List String) (curLen : Nat),
      (chunks ≠ [] → cur ≠ [] ∧ min ov (chunks.getLastD []).length ≤ cur.length) →
      deOverlapJoin ov (chunkLoop size ov ws chunks cur curLen) =
        deOverlapJoin ov (chunks ++ [cur]) ++ ws := by
  induction ws with
  | nil =>
    intro chunks cur curLen hP
    unfold chunkLoop
    split
    · rename_i hc
      have hcur : cur = [] := by
        cases cur with
        | nil => rfl
        | cons x xs => simp at hc
      subst hcur
      cases chunks with
      | nil => simp [deOverlapJoin, dropSeeded]
      | cons c cs => exact absurd rfl (hP (by simp)).1
    · simp
  | cons w ws ih =>
    intro chunks cur curLen hP
    unfold chunkLoop
    split
    · rename_i hcond
      have hcur : cur ≠ [] := by
        intro h
        subst h
        simp at hcond
      have hside : chunks ++ [cur] ≠ [] →
          overlapWords cur ov ++ [w] ≠ [] ∧
            min ov ((chunks ++ [cur]).getLastD []).length ≤
              (overlapWords cur ov ++ [w]).length := by
        intro _
        refine ⟨by simp, ?_⟩
        rw [List.getLastD_concat, List.length_append,
          overlapWords_length cur ov hov]
        simp
      rw [ih (chunks ++ [cur]) _ _ hside]
      rw [deOverlapJoin_append ov (chunks ++ [cur]) _ (by simp),
        List.getLastD_concat]
      rw [List.drop_left' (by rw [overlapWords_length cur ov hov])]
      simp [List.append_assoc]
    · have hside : chunks ≠ [] →
          cur ++ [w] ≠ [] ∧
            min ov (chunks.getLastD []).length ≤ (cur ++ [w]).length := by
        intro hne
        have hP2 := hP hne
        refine ⟨by simp, ?_⟩
        rw [List.length_append]
        exact Nat.le_trans hP2.2 (Nat.le_add_right _ _)
      rw [ih chunks (cur ++ [w]) _ hside]
      cases chunks with
      | nil => simp [deOverlapJoin, dropSeeded]
      | cons c cs =>
        have hP2 := hP (by simp)
        rw [deOverlapJoin_append ov (c :: cs) _ (by simp),
          deOverlapJoin_append ov (c :: cs) _ (by simp),
          List.drop_append_of_le_length hP2.2]
        simp [List.append_assoc]

/-- For a positive overlap, dropping from every chunk after the first its
seeded words and concatenating recovers the original word sequence. -/
theorem chunkWords_deOverlap (text : String) (size ov : Nat) (hov : 1 ≤ ov) :
    deOverlapJoin ov (chunkWords text size ov) = pySplit text := by
  unfold chunkWords
  rw [chunkLoop_deOverlap size ov hov _ [] [] 0 (by intro h; exact absurd rfl h)]
  simp [deOverlapJoin, dropSeeded]

theorem chunkLoop_join_sublist (size ov : Nat) (ws : List String) :
    ∀ (chunks : List (List String)) (cur : List String) (curLen : Nat),
      ((chunks ++ [cur]).flatten ++ ws).Sublist
        (chunkLoop size ov ws chunks cur curLen).flatten := by
  induction ws with
  | nil =>
    intro chunks cur curLen
    unfold chunkLoop
    split
    · rename_i hc
      have hcur : cur = [] := by
        cases cur with
        | nil => rfl
        | cons x xs => simp at hc
      subst hcur
      simp
    · simp
  | cons w ws ih =>
    intro chunks cur curLen
    unfold chunkLoop
    split
    · refine List.Sublist.trans ?_ (ih (chunks ++ [cur]) _ _)
      simp only [List.flatten_append, List.flatten_cons, List.flatten_nil,
        List.append_nil, List.append_assoc, List.singleton_append]
      refine List.Sublist.append_left ?_ _
      refine List.Sublist.append_left ?_ _
      exact List.sublist_append_right _ _
    · refine List.Sublist.trans ?_ (ih chunks (cur ++ [w]) _)
      simp only [List.flatten_append, List.flatten_cons, List.flatten_nil,
        List.append_nil, List.append_assoc, List.singleton_append]
      exact List.Sublist.refl _

/-- No word of the input is ever dropped: the input word sequence is a
subsequence of the concatenated chunk word lists. -/
theorem words_sublist_chunkWords (text : String) (size ov : Nat) :
    (pySplit text).Sublist (chunkWords text size ov).flatten := by
  have h := chunkLoop_join_sublist size ov (pySplit text) [] [] 0
  simpa using h

theorem chunkLoop_ne_nil (size ov : Nat) (ws : List String) :
    ∀ (chunks : List (List String)) (cur : List String) (curLen : Nat),
      (ws ≠ [] ∨ chunks ≠ [] ∨ cur ≠ []) →
      chunkLoop size ov ws chunks cur curLen ≠ [] := by
  induction ws with
  | nil =>
    intro chunks cur curLen h
    unfold chunkLoop
    split
    · rename_i hc
      have hcur : cur = [] := by
        cases cur with
        | nil => rfl
        | cons x xs => simp at hc
      subst hcur
      rcases h with h | h | h
      · exact absurd rfl h
      · exact h
      · exact absurd rfl h
    · simp
  | cons w ws ih =>
    intro chunks cur curLen _
    unfold chunkLoop
    split
    · exact ih _ _ _ (Or.inr (Or.inl (by simp)))
    · exact ih _ _ _ (Or.inr (Or.inr (by simp)))

theorem splitWordsAux_ne_nil (l : List Char) :
    ∀ acc : List Char, (acc ≠ [] ∨ ∃ c ∈ l, ¬ c.isWhitespace) →
      splitWordsAux l acc ≠ [] := by
  induction l with
  | nil =>
    intro acc h
    unfold splitWordsAux
    rcases h with h | h
    · rw [if_neg (by simpa using h)]
      simp
    · obtain ⟨c, hc, _⟩ := h
      simp at hc
  | cons c cs ih =>
    intro acc h
    unfold splitWordsAux
    by_cases hws : c.isWhitespace = true
    · rw [if_pos hws]
      by_cases hacc : acc.isEmpty = true
      · rw [if_pos hacc]
        apply ih []
        right
        rcases h with h | ⟨d, hd, hdw⟩
        · exact absurd (by simpa using hacc) h
        · rcases List.mem_cons.mp hd with rfl | hd2
          · exact absurd hws hdw
          · exact ⟨d, hd2, hdw⟩
      · rw [if_neg hacc]
        simp
    · rw [if_neg hws]
      exact ih (c :: acc) (Or.inl (by simp))

/-- A text with at least one non-whitespace character splits into at least
one word. -/
theorem pySplit_ne_nil (text : String)
    (h : ¬ text.toList.all Char.isWhitespace) : pySplit text ≠ [] := by
  unfold pySplit
  apply splitWordsAux_ne_nil
  right
  rw [List.all_eq_true] at h
  push_neg at h
  obtain ⟨c, hc, hw⟩ := h
  exact ⟨c, hc, by simpa using hw⟩

/-- A text with at least one non-whitespace character produces at least one
chunk. -/
theorem chunk_text_ne_nil (text : String) (size ov : Nat)
    (h : ¬ text.toList.all Char.isWhitespace) :
    chunk_text text size ov ≠ [] := by
  unfold chunk_text chunkWords
  simp only [ne_eq, List.map_eq_nil_iff]
  exact chunkLoop_ne_nil size ov (pySplit text) [] [] 0
    (Or.inl (pySplit_ne_nil text h))

/-- `oneSub` agrees with genuine rational subtraction from `1`. -/
theorem oneSub_eq (d : ℚ) : oneSub d = 1 - d := by
  unfold oneSub
  rw [Rat.mkRat_eq_div]
  push_cast
  rw [sub_div, div_self (by exact_mod_cast d.den_nz), Rat.num_div_den]

theorem chunksUsed_score (ids texts : List String) (dists : List ℚ) :
    ∀ (i : Nat),
      i < ((ids.zip (texts.zip (dists.map (fun d => oneSub d)))).map
        (fun p => ChunkInfo.mk p.1 p.2.1 (pyRound4 p.2.2))).length →
      (((ids.zip (texts.zip (dists.map (fun d => oneSub d)))).map
        (fun p => ChunkInfo.mk p.1 p.2.1 (pyRound4 p.2.2))).getD i
          (ChunkInfo.mk "" "" 0)).similarity_score =
        pyRound4 (1 - dists.getD i 0) := by
  induction ids generalizing texts dists with
  | nil =>
    intro i hi
    simp at hi
  | cons a as ih =>
    intro i hi
    cases texts with
    | nil => simp at hi
    | cons b bs =>
      cases dists with
      | nil => simp at hi
      | cons d ds =>
        cases i with
        | zero =>
          simp [oneSub_eq]
        | succ i =>
          simp only [List.map_cons, List.zip_cons_cons, List.getD_cons_succ]
          simp only [List.map_cons, List.zip_cons_cons, List.length_cons,
            Nat.add_lt_add_iff_right] at hi
          exact ih bs ds i hi

theorem map_chunkid_zip (ids : List String) (embs : List (List ℚ))
    (chunks : List String) (metas : List Meta)
    (h1 : ids.length ≤ embs.length) (h2 : ids.length ≤ chunks.length)
    (h3 : ids.length ≤ metas.length) :
    ((ids.zip (embs.zip (chunks.zip metas))).map
      (fun p => VectorEntry.mk p.1 p.2.1 p.2.2.1 p.2.2.2)).map VectorEntry.chunk_id = ids := by
  rw [List.map_map]
  have hfn : (VectorEntry.chunk_id ∘ fun p : String × (List ℚ × (String × Meta)) =>
      VectorEntry.mk p.1 p.2.1 p.2.2.1 p.2.2.2) = Prod.fst := rfl
  rw [hfn]
  apply List.map_fst_zip
  rw [List.length_zip, List.length_zip]
  omega

/-- `add_documents` can only fail with one of the two index errors. -/
theorem add_documents_error_shape (v : VectorDB) (ids : List String)
    (embs : List (List ℚ)) (chunks : List String) (metas : List Meta) :
    VectorDB.add_documents v ids embs chunks metas ≠ .error .noChunksCreated := by
  unfold VectorDB.add_documents
  split
  · simp
  · split
    · simp
    · simp

/-! ### Join/split round trip: the words of a chunk string are the loop's word list -/

theorem toList_mk (xs : List Char) : (String.mk xs).toList = xs := rfl

theorem mk_toList (s : String) : String.mk s.toList = s := rfl

theorem intercalate_go_append (s x : String) :
    ∀ (as : List String) (y : String),
      String.intercalate.go (x ++ y) s as = x ++ String.intercalate.go y s as := by
  intro as
  induction as with
  | nil => intro y; rfl
  | cons b bs ih =>
    intro y
    show String.intercalate.go (x ++ y ++ s ++ b) s bs = x ++ String.intercalate.go (y ++ s ++ b) s bs
    simp only [String.append_assoc]
    exact ih (y ++ (s ++ b))

theorem intercalate_cons_cons (s a b : String) (bs : List String) :
    String.intercalate s (a :: b :: bs) = a ++ s ++ String.intercalate s (b :: bs) := by
  show String.intercalate.go (a ++ s ++ b) s bs = a ++ s ++ String.intercalate.go b s bs
  exact intercalate_go_append s (a ++ s) bs b

theorem splitWordsAux_word (wcs : List Char) :
    ∀ acc : List Char, acc.reverse ++ wcs ≠ [] → (∀ c ∈ wcs, ¬ c.isWhitespace) →
      splitWordsAux wcs acc = [String.mk (acc.reverse ++ wcs)] := by
  induction wcs with
  | nil =>
    intro acc hne _
    unfold splitWordsAux
    rw [if_neg (by simp at hne ⊢; exact hne)]
    simp
  | cons c cs ih =>
    intro acc hne hgood
    unfold splitWordsAux
    rw [if_neg (by simpa using hgood c (by simp))]
    rw [ih (c :: acc) (by simp) (fun d hd => hgood d (by simp [hd]))]
    simp

theorem splitWordsAux_word_sep (wcs : List Char) :
    ∀ (acc rest : List Char) (c0 : Char), c0.isWhitespace = true →
      acc.reverse ++ wcs ≠ [] → (∀ c ∈ wcs, ¬ c.isWhitespace) →
      splitWordsAux (wcs ++ c0 :: rest) acc =
        String.mk (acc.reverse ++ wcs) :: splitWordsAux rest [] := by
  induction wcs with
  | nil =>
    intro acc rest c0 hc0 hne _
    simp only [List.nil_append]
    rw [splitWordsAux, if_pos hc0, if_neg (by simp at hne ⊢; exact hne)]
    simp
  | cons c cs ih =>
    intro acc rest c0 hc0 hne hgood
    simp only [List.cons_append]
    rw [splitWordsAux, if_neg (by simpa using hgood c (by simp))]
    rw [ih (c :: acc) rest c0 hc0 (by simp) (fun d hd => hgood d (by simp [hd]))]
    simp

/-- Joining well-formed words with single spaces and re-splitting recovers
exactly the word list. -/
theorem pySplit_intercalate : ∀ (c : List String),
    (∀ w ∈ c, w.toList ≠ [] ∧ ∀ ch ∈ w.toList, ¬ ch.isWhitespace) →
    pySplit (String.intercalate " " c) = c := by
  intro c
  induction c with
  | nil => intro _; rfl
  | cons a as ih =>
    intro hgood
    cases as with
    | nil =>
      have ha := hgood a (by simp)
      unfold pySplit
      have := splitWordsAux_word a.toList [] (by simpa using ha.1) ha.2
      show splitWordsAux (String.intercalate " " [a]).toList [] = [a]
      have hint : String.intercalate " " [a] = a := rfl
      rw [hint, this]
      simp [mk_toList]
    | cons b bs =>
      have ha := hgood a (by simp)
      rw [intercalate_cons_cons]
      unfold pySplit
      have hdata : (a ++ " " ++ String.intercalate " " (b :: bs)).toList =
          a.toList ++ ' ' :: (String.intercalate " " (b :: bs)).toList := by
        show (a ++ " " ++ String.intercalate " " (b :: bs)).data =
          a.data ++ ' ' :: (String.intercalate " " (b :: bs)).data
        rw [String.data_append, String.data_append, List.append_assoc]
        rfl
      rw [hdata]
      rw [splitWordsAux_word_sep a.toList [] _ ' ' (by decide)
        (by simpa using ha.1) ha.2]
      have hrec := ih (fun w hw => hgood w (by simp [hw]))
      unfold pySplit at hrec
      rw [hrec]
      simp [mk_toList]


theorem splitWordsAux_good (l : List Char) :
    ∀ acc : List Char, (∀ c ∈ acc, ¬ c.isWhitespace) →
      ∀ w ∈ splitWordsAux l acc,
        w.toList ≠ [] ∧ ∀ c ∈ w.toList, ¬ c.isWhitespace := by
  induction l with
  | nil =>
    intro acc hacc w hw
    unfold splitWordsAux at hw
    by_cases he : acc.isEmpty = true
    · rw [if_pos he] at hw
      simp at hw
    · rw [if_neg he] at hw
      rw [List.mem_singleton] at hw
      subst hw
      rw [toList_mk]
      refine ⟨by simpa using he, ?_⟩
      intro c hc
      exact hacc c (List.mem_reverse.mp hc)
  | cons c cs ih =>
    intro acc hacc w hw
    unfold splitWordsAux at hw
    by_cases hws : c.isWhitespace = true
    · rw [if_pos hws] at hw
      by_cases he : acc.isEmpty = true
      · rw [if_pos he] at hw
        exact ih [] (by simp) w hw
      · rw [if_neg he] at hw
        rcases List.mem_cons.mp hw with rfl | hw2
        · rw [toList_mk]
          refine ⟨by simpa using he, ?_⟩
          intro d hd
          exact hacc d (List.mem_reverse.mp hd)
        · exact ih [] (by simp) w hw2
    · rw [if_neg hws] at hw
      refine ih (c :: acc) ?_ w hw
      intro d hd
      rcases List.mem_cons.mp hd with rfl | hd2
      · simpa using hws
      · exact hacc d hd2

theorem pySplit_good (s : String) :
    ∀ w ∈ pySplit s, w.toList ≠ [] ∧ ∀ c ∈ w.toList, ¬ c.isWhitespace :=
  splitWordsAux_good s.toList [] (by simp)

theorem overlapWords_subset (cur : List String) (ov : Nat) :
    ∀ x ∈ overlapWords cur ov, x ∈ cur := by
  intro x hx
  unfold overlapWords pySliceLast at hx
  split at hx
  · split at hx
    · exact hx
    · exact List.drop_subset _ _ hx
  · exact hx

theorem chunkLoop_words_preserve (size ov : Nat) (P : String → Prop)
    (ws : List String) :
    ∀ (chunks : List (List String)) (cur : List String) (curLen : Nat),
      (∀ w ∈ ws, P w) → (∀ c ∈ chunks, ∀ w ∈ c, P w) → (∀ w ∈ cur, P w) →
      ∀ c ∈ chunkLoop size ov ws chunks cur curLen, ∀ w ∈ c, P w := by
  induction ws with
  | nil =>
    intro chunks cur curLen _ hchunks hcur c hc
    unfold chunkLoop at hc
    split at hc
    · exact hchunks c hc
    · rcases List.mem_append.mp hc with hc2 | hc2
      · exact hchunks c hc2
      · rw [List.mem_singleton] at hc2
        subst hc2
        exact hcur
  | cons w ws ih =>
    intro chunks cur curLen hws hchunks hcur c hc
    unfold chunkLoop at hc
    split at hc
    · refine ih (chunks ++ [cur]) _ _ (fun x hx => hws x (by simp [hx])) ?_ ?_ c hc
      · intro c2 hc2 w2 hw2
        rcases List.mem_append.mp hc2 with hc3 | hc3
        · exact hchunks c2 hc3 w2 hw2
        · rw [List.mem_singleton] at hc3
          subst hc3
          exact hcur w2 hw2
      · intro w2 hw2
        rcases List.mem_append.mp hw2 with hw3 | hw3
        · exact hcur w2 (overlapWords_subset cur ov w2 hw3)
        · rw [List.mem_singleton] at hw3
          subst hw3
          exact hws w2 (by simp)
    · refine ih chunks (cur ++ [w]) _ (fun x hx => hws x (by simp [hx]))
        hchunks ?_ c hc
      intro w2 hw2
      rcases List.mem_append.mp hw2 with hw3 | hw3
      · exact hcur w2 hw3
      · rw [List.mem_singleton] at hw3
        subst hw3
        exact hws w2 (by simp)

/-- Every word of every produced chunk is a word of the input: non-empty and
whitespace-free. -/
theorem chunkWords_good (text : String) (size ov : Nat) :
    ∀ c ∈ chunkWords text size ov, ∀ w ∈ c,
      w.toList ≠ [] ∧ ∀ ch ∈ w.toList, ¬ ch.isWhitespace := by
  unfold chunkWords
  exact chunkLoop_words_preserve size ov _ (pySplit text) [] [] 0
    (pySplit_good text) (by simp) (by simp)

/-- Splitting the `i`-th chunk string recovers the `i`-th chunk word list. -/
theorem pySplit_chunk_text (text : String) (size ov i : Nat)
    (h : i < (chunk_text text size ov).length) :
    pySplit ((chunk_text text size ov).getD i "") =
      (chunkWords text size ov).getD i [] := by
  have hlen : i < (chunkWords text size ov).length := by
    simpa [chunk_text] using h
  have e1 : (chunk_text text size ov).getD i "" =
      String.intercalate " " ((chunkWords text size ov).getD i []) := by
    rw [List.getD_eq_getElem?_getD,
      List.getElem?_eq_getElem (show i < (chunk_text text size ov).length from h)]
    rw [List.getD_eq_getElem?_getD, List.getElem?_eq_getElem hlen]
    show (chunk_text text size ov).get ⟨i, h⟩ = _
    simp [chunk_text]
  rw [e1]
  apply pySplit_intercalate
  intro w hw
  have hmem : (chunkWords text size ov).getD i [] ∈ chunkWords text size ov := by
    rw [List.getD_eq_getElem?_getD, List.getElem?_eq_getElem hlen]
    exact List.getElem_mem _
  exact chunkWords_good text size ov _ hmem w hw


/-- Splitting every chunk string of `chunk_text` recovers the loop's chunk
word lists. -/
theorem map_pySplit_chunk_text (text : String) (size ov : Nat) :
    (chunk_text text size ov).map pySplit = chunkWords text size ov := by
  unfold chunk_text
  rw [List.map_map]
  have hc : ∀ c ∈ chunkWords text size ov,
      (pySplit ∘ String.intercalate " ") c = id c := by
    intro c hc
    simp only [Function.comp_apply, id_eq]
    exact pySplit_intercalate c (fun w hw => chunkWords_good text size ov c hc w hw)
  rw [List.map_congr_left hc, List.map_id]

/-- Word-level form of the adjacent-chunk overlap property. -/
theorem chunkWords_overlap_boundary (text : String) (size ov i : Nat)
    (h : i + 1 < (chunkWords text size ov).length) :
    ((chunkWords text size ov).getD (i + 1) []).take
        (min ov ((chunkWords text size ov).getD i []).length) =
      lastN ((chunkWords text size ov).getD i [])
        (min ov ((chunkWords text size ov).getD i []).length) := by
  have hch := chunkWords_chain text size ov
  rw [List.chain'_iff_get] at hch
  have hpair := hch i (by omega)
  have e1 : (chunkWords text size ov).getD i [] =
      (chunkWords text size ov).get ⟨i, by omega⟩ := by
    rw [List.getD_eq_getElem?_getD,
      List.getElem?_eq_getElem (show i < (chunkWords text size ov).length by omega)]
    rfl
  have e2 : (chunkWords text size ov).getD (i + 1) [] =
      (chunkWords text size ov).get ⟨i + 1, by omega⟩ := by
    rw [List.getD_eq_getElem?_getD,
      List.getElem?_eq_getElem (show i + 1 < (chunkWords text size ov).length by omega)]
    rfl
  rw [e1, e2]
  exact hpair.2

/-! ### Claims -/

/-- C1: for every input text, target size and overlap, every chunk string
after the first returned by `chunk_text` begins with the trailing
`min overlap (word count of the previous chunk)` words of the previous
chunk (the words of a chunk being its Python whitespace split). -/
theorem chunk_overlap_boundary_matches (text : String) (size ov i : Nat)
    (h : i + 1 < (chunk_text text size ov).length) :
    (pySplit ((chunk_text text size ov).getD (i + 1) "")).take
        (min ov (pySplit ((chunk_text text size ov).getD i "")).length) =
      lastN (pySplit ((chunk_text text size ov).getD i ""))
        (min ov (pySplit ((chunk_text text size ov).getD i "")).length) := by
  rw [pySplit_chunk_text text size ov (i + 1) h,
    pySplit_chunk_text text size ov i (by omega)]
  apply chunkWords_overlap_boundary
  simpa [chunk_text] using h

theorem chunk_overlap_boundary_matches_witness :
    0 + 1 < (chunk_text "aaaa bbbb cccc" 1 1).length ∧
    (pySplit ((chunk_text "aaaa bbbb cccc" 1 1).getD 1 "")).take
        (min 1 (pySplit ((chunk_text "aaaa bbbb cccc" 1 1).getD 0 "")).length) =
      lastN (pySplit ((chunk_text "aaaa bbbb cccc" 1 1).getD 0 ""))
        (min 1 (pySplit ((chunk_text "aaaa bbbb cccc" 1 1).getD 0 "")).length) :=
  ⟨by decide, chunk_overlap_boundary_matches "aaaa bbbb cccc" 1 1 0 (by decide)⟩

/-- C2 (counterexample): with overlap `0`, Python's `current_chunk[-0:]`
slice seeds the whole previous chunk, so dropping the claimed
`min 0 (previous length) = 0` leading words from each later chunk does not
reconstruct the original token sequence. -/
theorem deoverlap_fails_at_zero_overlap :
    deOverlapJoin 0 ((chunk_text "aaaa bbbb" 1 0).map pySplit) ≠
      pySplit "aaaa bbbb" := by
  decide

/-- C2 (amended: overlap at least 1): for every input text, chunk size and
positive overlap, concatenating the word sequences of the chunks returned by
`chunk_text`, after dropping from every chunk after the first its seeded
`min overlap (previous chunk length)` leading words, yields exactly the
whitespace-split token sequence of the input. -/
theorem deoverlap_reconstructs_words (text : String) (size ov : Nat)
    (hov : 1 ≤ ov) :
    deOverlapJoin ov ((chunk_text text size ov).map pySplit) = pySplit text := by
  rw [map_pySplit_chunk_text]
  exact chunkWords_deOverlap text size ov hov

theorem deoverlap_reconstructs_words_witness :
    1 ≤ 1 ∧
    deOverlapJoin 1 ((chunk_text "aaaa bbbb cccc" 1 1).map pySplit) =
      pySplit "aaaa bbbb cccc" :=
  ⟨by decide, deoverlap_reconstructs_words "aaaa bbbb cccc" 1 1 (by decide)⟩

/-- The detail route rebuilds exactly the ids the ingestion built. -/
theorem reconstruct_eq_ingest (documentId : String) (n : Nat) :
    reconstructChunkIds documentId n = ingestChunkIds documentId n := rfl

/-- C3: for every successful ingestion, the chunk ids stored in the vector
index are exactly the route reconstruction `f(documentId, i)` for `i` below
the chunk count persisted with the document. -/
theorem chunk_ids_reconstructible
    (documentId filename file_type extracted : String)
    (embeddings : List (List ℚ)) (v : VectorDB) (size ov : Nat)
    (st : IngestState) (row : DocRow)
    (hlen : (chunk_text extracted size ov).length ≤ embeddings.length)
    (h : create_document documentId filename file_type extracted (.ok embeddings)
          (some v) size ov = (st, .ok row)) :
    row.chunk_count = (chunk_text extracted size ov).length ∧
    ∃ v2, st.vdb = some v2 ∧
      v2.stored.map VectorEntry.chunk_id =
        v.stored.map VectorEntry.chunk_id ++
          reconstructChunkIds documentId row.chunk_count := by
  by_cases hws : extracted.toList.all Char.isWhitespace = true
  · rw [create_document, if_pos hws] at h
    simp at h
  · by_cases hch : (chunk_text extracted size ov).isEmpty = true
    · rw [create_document, if_neg hws, if_pos hch] at h
      simp at h
    · rw [create_document, if_neg hws, if_neg hch] at h
      dsimp only at h
      by_cases hinit : v.collectionInitialized = true
      · cases hbe : v.backendError with
        | some msg =>
          unfold VectorDB.add_documents at h
          rw [if_neg (by simp [hinit]), hbe] at h
          simp at h
        | none =>
          unfold VectorDB.add_documents at h
          rw [if_neg (by simp [hinit]), hbe] at h
          rw [Prod.mk.injEq, Except.ok.injEq] at h
          obtain ⟨hst, hrow⟩ := h
          subst hrow
          subst hst
          refine ⟨rfl, _, rfl, ?_⟩
          simp only [List.map_append]
          congr 1
          rw [reconstruct_eq_ingest]
          apply map_chunkid_zip
          · simpa [ingestChunkIds] using hlen
          · simp [ingestChunkIds]
          · simp [ingestChunkIds]
      · unfold VectorDB.add_documents at h
        rw [if_pos (by simp [Bool.not_eq_true] at hinit ⊢; exact hinit)] at h
        simp at h

theorem chunk_ids_reconstructible_witness :
    (chunk_text "hello world" 500 50).length ≤ ([[(0 : ℚ)]]).length ∧
    ((DocRow.mk "d" "f.txt" "txt" "hello world" 1).chunk_count =
        (chunk_text "hello world" 500 50).length ∧
      ∃ v2, (IngestState.mk true
          (some ⟨true, none, [⟨"d_chunk_0", [0], "hello world", ⟨"d", 0, "f.txt"⟩⟩]⟩)
          (some ⟨"d", "f.txt", "txt", "hello world", 1⟩)).vdb = some v2 ∧
        v2.stored.map VectorEntry.chunk_id =
          (VectorDB.mk true none []).stored.map VectorEntry.chunk_id ++
            reconstructChunkIds "d" (DocRow.mk "d" "f.txt" "txt" "hello world" 1).chunk_count) :=
  ⟨by decide, chunk_ids_reconstructible "d" "f.txt" "text/plain" "hello world"
    [[0]] ⟨true, none, []⟩ 500 50
    (IngestState.mk true
      (some ⟨true, none, [⟨"d_chunk_0", [0], "hello world", ⟨"d", 0, "f.txt"⟩⟩]⟩)
      (some ⟨"d", "f.txt", "txt", "hello world", 1⟩))
    (DocRow.mk "d" "f.txt" "txt" "hello world" 1) (by decide) (by decide)⟩

/-- C4: when the vector index returns no chunks, the query route returns the
fixed fallback answer with empty chunk and document lists and never invokes
the LLM completion service. -/
theorem empty_retrieval_short_circuits (top_k maxTopK : Int) (llmModel : String)
    (v : VectorDB) (emb : List ℚ) (results : ChromaQueryResults)
    (rag : Except String (String × String))
    (hv : v.collectionInitialized = true)
    (hempty : results.ids = [] ∨ results.ids.headD [] = []) :
    query_documents top_k maxTopK llmModel (some v) (.ok emb) results rag =
      ⟨.ok ⟨"No relevant documents found in the database.", [], [], llmModel⟩,
        some (min (max top_k 1) maxTopK), false⟩ := by
  unfold query_documents
  dsimp only
  rw [if_neg (by simp [hv]), if_pos ?_]
  rcases hempty with h | h
  · simp [h]
  · rw [List.headD_eq_head?_getD] at h
    simp [h]

theorem empty_retrieval_short_circuits_witness :
    (VectorDB.mk true none []).collectionInitialized = true ∧
    query_documents 7 10 "m" (some ⟨true, none, []⟩) (.ok [])
        ⟨[], [], [], none⟩ (.ok ("a", "mm")) =
      ⟨.ok ⟨"No relevant documents found in the database.", [], [], "m"⟩,
        some 7, false⟩ :=
  ⟨rfl, empty_retrieval_short_circuits 7 10 "m" ⟨true, none, []⟩ []
    ⟨[], [], [], none⟩ (.ok ("a", "mm")) rfl (Or.inl rfl)⟩

/-- C5: the `n_results` passed to the vector-index query is always the
request's `top_k` clamped into `[1, MAX_TOP_K]`, the clamped value lies in
that interval, and an out-of-range `top_k` behaves exactly like its clamped
value rather than being rejected. -/
theorem top_k_is_clamped (top_k maxTopK : Int) (llmModel : String) (v : VectorDB)
    (emb : List ℚ) (results : ChromaQueryResults)
    (rag : Except String (String × String))
    (hv : v.collectionInitialized = true) (hmax : 1 ≤ maxTopK) :
    (query_documents top_k maxTopK llmModel (some v) (.ok emb) results rag).usedTopK =
      some (min (max top_k 1) maxTopK) ∧
    1 ≤ min (max top_k 1) maxTopK ∧
    min (max top_k 1) maxTopK ≤ maxTopK ∧
    query_documents top_k maxTopK llmModel (some v) (.ok emb) results rag =
      query_documents (min (max top_k 1) maxTopK) maxTopK llmModel (some v)
        (.ok emb) results rag := by
  have hcl : min (max (min (max top_k 1) maxTopK) 1) maxTopK =
      min (max top_k 1) maxTopK := by omega
  refine ⟨?_, by omega, by omega, ?_⟩
  · unfold query_documents
    dsimp only
    rw [if_neg (by simp [hv])]
    split
    · rfl
    · cases rag with
      | error m => rfl
      | ok am => rfl
  · unfold query_documents
    dsimp only
    rw [hcl]

theorem top_k_is_clamped_witness :
    (VectorDB.mk true none []).collectionInitialized = true ∧ (1 : Int) ≤ 10 ∧
    (query_documents 1000 10 "m" (some ⟨true, none, []⟩) (.ok [])
        ⟨[], [], [], none⟩ (.ok ("a", "mm"))).usedTopK = some 10 :=
  ⟨rfl, by decide, (top_k_is_clamped 1000 10 "m" ⟨true, none, []⟩ []
    ⟨[], [], [], none⟩ (.ok ("a", "mm")) rfl (by decide)).1⟩

/-- C6: every chunk reported by a successful query carries
`similarity_score = round(1 - distance, 4)` for the cosine distance the
index reported at the same rank. -/
theorem similarity_score_is_rounded (top_k maxTopK : Int) (llmModel : String)
    (vdbService : Option VectorDB) (embedResult : Except String (List ℚ))
    (results : ChromaQueryResults) (rag : Except String (String × String))
    (resp : QueryResponse) (i : Nat)
    (hresp : (query_documents top_k maxTopK llmModel vdbService embedResult
        results rag).response = .ok resp)
    (hi : i < resp.chunks_used.length) :
    (resp.chunks_used.getD i (ChunkInfo.mk "" "" 0)).similarity_score =
      pyRound4 (1 - (((results.distances.getD
        [List.replicate (results.ids.headD []).length 0]).headD []).getD i 0)) := by
  cases vdbService with
  | none => simp [query_documents] at hresp
  | some v =>
    cases embedResult with
    | error m => simp [query_documents] at hresp
    | ok emb =>
      unfold query_documents at hresp
      dsimp only at hresp
      by_cases hv : v.collectionInitialized = true
      · rw [if_neg (by simp [hv])] at hresp
        by_cases hg : (results.ids.isEmpty || (results.ids.headD []).isEmpty) = true
        · rw [if_pos hg] at hresp
          rw [Except.ok.injEq] at hresp
          subst hresp
          simp at hi
        · rw [if_neg hg] at hresp
          cases rag with
          | error m => simp at hresp
          | ok am =>
            rw [Except.ok.injEq] at hresp
            subst hresp
            exact chunksUsed_score _ _ _ i hi
      · rw [if_pos (by simp [Bool.not_eq_true] at hv ⊢; exact hv)] at hresp
        simp at hresp

theorem similarity_score_is_rounded_witness :
    (query_documents 3 10 "m" (some ⟨true, none, []⟩) (.ok [])
        ⟨[["c0"]], [["t0"]], [[⟨"doc", 0, "f"⟩]], some [[mkRat 1 8]]⟩
        (.ok ("a", "mm"))).response =
      .ok (QueryResponse.mk "a" [⟨"c0", "t0", mkRat 7 8⟩] ["doc"] "mm") ∧
    0 < (QueryResponse.mk "a" [⟨"c0", "t0", mkRat 7 8⟩] ["doc"] "mm").chunks_used.length ∧
    (((QueryResponse.mk "a" [⟨"c0", "t0", mkRat 7 8⟩] ["doc"] "mm").chunks_used.getD 0
        (ChunkInfo.mk "" "" 0)).similarity_score =
      pyRound4 (1 - ((((⟨[["c0"]], [["t0"]], [[⟨"doc", 0, "f"⟩]],
        some [[mkRat 1 8]]⟩ : ChromaQueryResults).distances.getD
          [List.replicate ((⟨[["c0"]], [["t0"]], [[⟨"doc", 0, "f"⟩]],
            some [[mkRat 1 8]]⟩ : ChromaQueryResults).ids.headD []).length 0]).headD
              []).getD 0 0))) :=
  ⟨by decide, by decide, similarity_score_is_rounded 3 10 "m" (some ⟨true, none, []⟩)
    (.ok []) ⟨[["c0"]], [["t0"]], [[⟨"doc", 0, "f"⟩]], some [[mkRat 1 8]]⟩
    (.ok ("a", "mm")) (QueryResponse.mk "a" [⟨"c0", "t0", mkRat 7 8⟩] ["doc"] "mm")
    0 (by decide) (by decide)⟩

/-- C7: a single word whose approximate token cost exceeds the target size is
still returned untruncated as the only chunk (the split requires a non-empty
current chunk), and no word of any input is ever dropped: the input word
sequence is a subsequence of the concatenated chunk words. -/
theorem oversized_word_kept_whole (text w : String) (size ov : Nat)
    (h1 : pySplit text = [w]) (_h2 : size < wordCost w) :
    chunk_text text size ov = [w] ∧
    ∀ t : String, (pySplit t).Sublist ((chunk_text t size ov).map pySplit).flatten := by
  constructor
  · unfold chunk_text chunkWords
    rw [h1]
    unfold chunkLoop
    rw [if_neg (by simp)]
    unfold chunkLoop
    rw [if_neg (by simp)]
    simp only [List.nil_append, List.map_cons, List.map_nil]
    rfl
  · intro t
    rw [map_pySplit_chunk_text]
    exact words_sublist_chunkWords t size ov

theorem oversized_word_kept_whole_witness :
    pySplit "aaaaaaaa" = ["aaaaaaaa"] ∧ 1 < wordCost "aaaaaaaa" ∧
    chunk_text "aaaaaaaa" 1 3 = ["aaaaaaaa"] ∧
    (pySplit "hi there everyone").Sublist
      ((chunk_text "hi there everyone" 1 3).map pySplit).flatten :=
  ⟨by decide, by decide,
    (oversized_word_kept_whole "aaaaaaaa" "aaaaaaaa" 1 3 (by decide) (by decide)).1,
    (oversized_word_kept_whole "aaaaaaaa" "aaaaaaaa" 1 3 (by decide)
      (by decide)).2 "hi there everyone"⟩

/-- C8 (counterexample): when the upsert fails after successful embedding,
the relational row is NOT persisted (`dbRow = none`), refuting the claim
that file and row both remain. -/
theorem upsert_failure_keeps_row_refuted :
    (create_document "d" "f.txt" "text/plain" "hello" (.ok [[0]])
        (some ⟨true, some "add failed", []⟩) 500 50).2 =
      .error (.indexBackendFailed "add failed") ∧
    (create_document "d" "f.txt" "text/plain" "hello" (.ok [[0]])
        (some ⟨true, some "add failed", []⟩) 500 50).1.fileWritten = true ∧
    (create_document "d" "f.txt" "text/plain" "hello" (.ok [[0]])
        (some ⟨true, some "add failed", []⟩) 500 50).1.dbRow = none := by
  decide

/-- C8 (amended): if embedding succeeds and the vector-index upsert fails,
ingestion aborts with the upsert's error while the already-written file
remains persisted but the relational row is NOT created (the row insert
only happens after a successful upsert). -/
theorem upsert_failure_partial_state
    (documentId filename file_type extracted msg : String)
    (embeddings : List (List ℚ)) (v : VectorDB) (size ov : Nat)
    (hws : ¬ extracted.toList.all Char.isWhitespace = true)
    (hinit : v.collectionInitialized = true)
    (hbe : v.backendError = some msg) :
    create_document documentId filename file_type extracted (.ok embeddings)
        (some v) size ov =
      ({ fileWritten := true, vdb := some v, dbRow := none },
        .error (.indexBackendFailed msg)) := by
  have hch : ¬ (chunk_text extracted size ov).isEmpty = true := by
    simpa using chunk_text_ne_nil extracted size ov hws
  rw [create_document, if_neg hws, if_neg hch]
  dsimp only
  unfold VectorDB.add_documents
  rw [if_neg (by simp [hinit]), hbe]

theorem upsert_failure_partial_state_witness :
    (¬ ("hello").toList.all Char.isWhitespace = true) ∧
    (VectorDB.mk true (some "boom") []).collectionInitialized = true ∧
    (VectorDB.mk true (some "boom") []).backendError = some "boom" ∧
    create_document "d" "f.txt" "text/plain" "hello" (.ok [[0]])
        (some ⟨true, some "boom", []⟩) 500 50 =
      ({ fileWritten := true, vdb := some ⟨true, some "boom", []⟩, dbRow := none },
        .error (.indexBackendFailed "boom")) :=
  ⟨by decide, rfl, rfl,
    upsert_failure_partial_state "d" "f.txt" "text/plain" "hello" "boom"
      [[0]] ⟨true, some "boom", []⟩ 500 50 (by decide) rfl rfl⟩

/-- C9 (counterexample): when the vector service object itself is absent
(`vector_db_service is None`), ingestion does not fail: it silently skips
indexing and succeeds, refuting the claim that every operation needing the
index fails with the unavailability error. -/
theorem absent_service_ingestion_succeeds :
    (create_document "d" "f.txt" "text/plain" "hello" (.ok [[0]]) none 500 50).2 =
      .ok ⟨"d", "f.txt", "txt", "hello", 1⟩ ∧
    (create_document "d" "f.txt" "text/plain" "hello" (.ok [[0]]) none 500 50).1.vdb =
      none := by
  decide

/-- C9 (amended): when the service object exists but its collection was never
initialized, both ingestion's upsert and the query fail with the
"not initialized" error, and a query with the service object absent fails
with the "not available" error; but ingestion with the service object absent
silently skips indexing and succeeds. -/
theorem index_unavailable_fail_fast
    (documentId filename file_type extracted : String)
    (embeddings : List (List ℚ)) (emb : List ℚ) (v : VectorDB) (size ov : Nat)
    (top_k maxTopK : Int) (llmModel : String)
    (results : ChromaQueryResults) (rag : Except String (String × String))
    (hws : ¬ extracted.toList.all Char.isWhitespace = true)
    (hinit : v.collectionInitialized = false) :
    (create_document documentId filename file_type extracted (.ok embeddings)
        (some v) size ov).2 = .error .indexNotInitialized ∧
    (query_documents top_k maxTopK llmModel (some v) (.ok emb) results rag).response =
      .error .indexNotInitialized ∧
    (query_documents top_k maxTopK llmModel none (.ok emb) results rag).response =
      .error .vectorDbUnavailable ∧
    (create_document documentId filename file_type extracted (.ok embeddings)
        none size ov).2 =
      .ok ⟨documentId, filename, fileExt file_type, extracted,
        (chunk_text extracted size ov).length⟩ := by
  have hch : ¬ (chunk_text extracted size ov).isEmpty = true := by
    simpa using chunk_text_ne_nil extracted size ov hws
  refine ⟨?_, ?_, ?_, ?_⟩
  · rw [create_document, if_neg hws, if_neg hch]
    dsimp only
    unfold VectorDB.add_documents
    rw [if_pos (by simp [hinit])]
  · unfold query_documents
    dsimp only
    rw [if_pos (by simp [hinit])]
  · rfl
  · rw [create_document, if_neg hws, if_neg hch]

theorem index_unavailable_fail_fast_witness :
    (¬ ("hello").toList.all Char.isWhitespace = true) ∧
    (VectorDB.mk false none []).collectionInitialized = false ∧
    ((create_document "d" "f.txt" "text/plain" "hello" (.ok [[0]])
        (some ⟨false, none, []⟩) 500 50).2 = .error .indexNotInitialized ∧
      (query_documents 5 10 "m" (some ⟨false, none, []⟩) (.ok [])
        ⟨[], [], [], none⟩ (.ok ("a", "mm"))).response = .error .indexNotInitialized ∧
      (query_documents 5 10 "m" none (.ok [])
        ⟨[], [], [], none⟩ (.ok ("a", "mm"))).response = .error .vectorDbUnavailable ∧
      (create_document "d" "f.txt" "text/plain" "hello" (.ok [[0]])
        none 500 50).2 =
        .ok ⟨"d", "f.txt", fileExt "text/plain", "hello",
          (chunk_text "hello" 500 50).length⟩) :=
  ⟨by decide, rfl,
    index_unavailable_fail_fast "d" "f.txt" "text/plain" "hello" [[0]] []
      ⟨false, none, []⟩ 500 50 5 10 "m" ⟨[], [], [], none⟩ (.ok ("a", "mm"))
      (by decide) rfl⟩

/-- C10: a text with at least one non-whitespace character always chunks into
a non-empty list, so once the empty-extraction check has passed, the
"No chunks created from document" branch of `create_document` is
unreachable. -/
theorem nonblank_text_gives_chunks (text : String) (size ov : Nat)
    (h : ¬ text.toList.all Char.isWhitespace) :
    chunk_text text size ov ≠ [] ∧
    ∀ (documentId filename file_type : String)
      (embedResult : Except String (List (List ℚ)))
      (vdbService : Option VectorDB),
      (create_document documentId filename file_type text embedResult
          vdbService size ov).2 ≠ .error .noChunksCreated := by
  refine ⟨chunk_text_ne_nil text size ov h, ?_⟩
  intro documentId filename file_type embedResult vdbService
  have hch : ¬ (chunk_text text size ov).isEmpty = true := by
    simpa using chunk_text_ne_nil text size ov h
  rw [create_document, if_neg h, if_neg hch]
  dsimp only
  cases embedResult with
  | error m => simp
  | ok embs =>
    dsimp only
    cases vdbService with
    | none => simp
    | some v =>
      dsimp only
      cases hadd : VectorDB.add_documents v
          (ingestChunkIds documentId (chunk_text text size ov).length) embs
          (chunk_text text size ov)
          ((List.range (chunk_text text size ov).length).map
            (fun i => Meta.mk documentId i filename)) with
      | error e =>
        intro hcontra
        simp only [Except.error.injEq] at hcontra
        subst hcontra
        exact add_documents_error_shape v _ _ _ _ hadd
      | ok v2 =>
        simp

theorem nonblank_text_gives_chunks_witness :
    (¬ ("hello").toList.all Char.isWhitespace) ∧
    chunk_text "hello" 500 50 ≠ [] ∧
    (create_document "d" "f.txt" "text/plain" "hello" (.ok [[0]])
        none 500 50).2 ≠ .error .noChunksCreated :=
  ⟨by decide, (nonblank_text_gives_chunks "hello" 500 50 (by decide)).1,
    (nonblank_text_gives_chunks "hello" 500 50 (by decide)).2 "d" "f.txt"
      "text/plain" (.ok [[0]]) none⟩

end DocSearch
